import Mathlib

/-!
Verification development for the `ai-tournament` repository.

The Rust sources are shallowly embedded as Lean definitions:
  * `Duration` values are nanosecond counts (`Nat`);
  * `usize`/`u32`/`u8` become `Nat` (counters in the tournament code stay far
    below any wrap-around, and `u8` range checks are made explicit where the
    source parses `u8` values);
  * `f32` match scores become `Rat` (the concrete scores exercised here are
    small integers, on which `f32` arithmetic is exact);
  * `HashSet<u8>` becomes `Finset Nat` (iteration order of a `HashSet` is
    arbitrary; wherever the source iterates a set we iterate it in sorted
    order, which is one of the permitted orders and — where a claim depends
    on it — is order-irrelevant for the computed value);
  * code that can panic (`unwrap`, `Vec` indexing, unchecked integer
    subtraction, `assert!`) is embedded as an `Option`/`Except` returning
    function where `none`/`error` marks the panic.
-/

namespace AiTournament

/-! ## Constraints (`ai-tournament/src/constraints.rs`) -/

/-- Embeds `struct Constraints` from `constraints.rs`.  Durations are in
nanoseconds, RAM in bytes, CPUs as a finite set of indices. -/
structure Constraints where
  total_ram : Nat
  agent_ram : Nat
  cpus : Finset Nat
  cpus_per_agent : Nat
  time_budget : Nat
  action_time : Nat
  deriving DecidableEq

/-- The ascending enumeration of a finite set of naturals.  This stands in
for the arbitrary iteration order of a Rust `HashSet` (and for `BTreeMap`
key order); it is one fixed enumeration, chosen to be computable by kernel
reduction. -/
def asc_list (s : Finset Nat) : List Nat :=
  (List.range (s.sup id + 1)).filter (fun x => decide (x ∈ s))

theorem asc_list_nodup (s : Finset Nat) : (asc_list s).Nodup :=
  (List.nodup_range _).filter _

theorem mem_asc_list (s : Finset Nat) (x : Nat) : x ∈ asc_list s ↔ x ∈ s := by
  unfold asc_list
  rw [List.mem_filter]
  constructor
  · intro h
    simpa using h.2
  · intro h
    refine ⟨List.mem_range.mpr ?_, by simpa using h⟩
    have := Finset.le_sup (f := id) h
    simp only [id] at this
    omega

theorem asc_list_toFinset (s : Finset Nat) : (asc_list s).toFinset = s := by
  ext x
  rw [List.mem_toFinset, mem_asc_list]

theorem asc_list_length (s : Finset Nat) : (asc_list s).length = s.card := by
  conv_rhs => rw [← asc_list_toFinset s]
  rw [List.toFinset_card_of_nodup (asc_list_nodup s)]

namespace Constraints

/-- Embeds `Constraints::add`: `total_ram += res.total_ram; cpus.extend(res.cpus)`. -/
def add (c res : Constraints) : Constraints :=
  { c with total_ram := c.total_ram + res.total_ram, cpus := c.cpus ∪ res.cpus }

/-- The CPUs removed by `num_cpus` successive `take_one_cpu` calls, together
with the remaining pool.  `take_one_cpu` pops an arbitrary element of the
`HashSet`; iterating it `n` times removes `n` distinct elements, modelled here
as the first `n` elements of the ascending enumeration of the set. -/
def takeCpus (n : Nat) (s : Finset Nat) : Finset Nat × Finset Nat :=
  let l := asc_list s
  ((l.take n).toFinset, (l.drop n).toFinset)

/-- Embeds `Constraints::take`.  Returns `(slice, remaining pool)`; `none`
models the panics of `take_one_cpu` (empty set) and of the unchecked
`self.total_ram -= ram`. -/
def take (c : Constraints) (num_cpus ram : Nat) : Option (Constraints × Constraints) :=
  if num_cpus ≤ c.cpus.card ∧ ram ≤ c.total_ram then
    let t := takeCpus num_cpus c.cpus
    some ({ c with total_ram := ram, cpus := t.1 },
          { c with total_ram := c.total_ram - ram, cpus := t.2 })
  else
    none

/-- Embeds `Constraints::try_take`: the guard `cpus.len() >= num_cpus &&
total_ram >= ram` before delegating to `take`. -/
def try_take (c : Constraints) (num_cpus ram : Nat) : Option (Constraints × Constraints) :=
  if c.cpus.card ≥ num_cpus ∧ c.total_ram ≥ ram then take c num_cpus ram else none

theorem takeCpus_card (n : Nat) (s : Finset Nat) (h : n ≤ s.card) :
    (takeCpus n s).1.card = n := by
  unfold takeCpus
  have hnodup : ((asc_list s).take n).Nodup :=
    (asc_list_nodup s).sublist (List.take_sublist _ _)
  rw [List.toFinset_card_of_nodup hnodup, List.length_take, asc_list_length]
  exact Nat.min_eq_left h

theorem takeCpus_union (n : Nat) (s : Finset Nat) :
    (takeCpus n s).1 ∪ (takeCpus n s).2 = s := by
  unfold takeCpus
  rw [← List.toFinset_append, List.take_append_drop, asc_list_toFinset]

theorem take_fields (c : Constraints) (num_cpus ram : Nat) (slice pool : Constraints)
    (h : take c num_cpus ram = some (slice, pool)) :
    slice.total_ram = ram ∧ slice.agent_ram = c.agent_ram ∧
    slice.cpus_per_agent = c.cpus_per_agent ∧ slice.time_budget = c.time_budget ∧
    slice.action_time = c.action_time ∧
    pool.total_ram = c.total_ram - ram ∧ pool.agent_ram = c.agent_ram ∧
    pool.cpus_per_agent = c.cpus_per_agent ∧ pool.time_budget = c.time_budget ∧
    pool.action_time = c.action_time ∧
    slice.cpus = (takeCpus num_cpus c.cpus).1 ∧ pool.cpus = (takeCpus num_cpus c.cpus).2 ∧
    num_cpus ≤ c.cpus.card ∧ ram ≤ c.total_ram := by
  unfold take at h
  by_cases hc : num_cpus ≤ c.cpus.card ∧ ram ≤ c.total_ram
  · simp only [if_pos hc] at h
    obtain ⟨h1, h2⟩ := Prod.mk.injEq .. ▸ Option.some.injEq .. ▸ h
    subst h1; subst h2
    exact ⟨rfl, rfl, rfl, rfl, rfl, rfl, rfl, rfl, rfl, rfl, rfl, rfl, hc.1, hc.2⟩
  · simp [if_neg hc] at h

/-- Resource conservation for a single `try_take`/`add` round trip: returning
the slice handed out by `try_take` restores the pool exactly. -/
theorem add_try_take (c : Constraints) (num_cpus ram : Nat) (slice pool : Constraints)
    (h : try_take c num_cpus ram = some (slice, pool)) :
    add pool slice = c := by
  unfold try_take at h
  by_cases hg : c.cpus.card ≥ num_cpus ∧ c.total_ram ≥ ram
  · simp only [if_pos hg] at h
    obtain ⟨hsr, hsa, hsc, hst, hsx, hpr, hpa, hpc, hpt, hpx, hscpu, hpcpu, hn, hr⟩ :=
      take_fields c num_cpus ram slice pool h
    unfold add
    have hcup : pool.cpus ∪ slice.cpus = c.cpus := by
      rw [hpcpu, hscpu, Finset.union_comm, takeCpus_union]
    cases c with
    | mk ctr car ccp cca ctb cat =>
      simp only [Constraints.mk.injEq]
      refine ⟨?_, hpa, hcup, hpc, hpt, hpx⟩
      simp only at hpr hsr hr
      omega
  · simp [if_neg hg] at h

theorem takeCpus_snd_card (n : Nat) (s : Finset Nat) :
    (takeCpus n s).2.card = s.card - n := by
  unfold takeCpus
  have hnodup : ((asc_list s).drop n).Nodup :=
    (asc_list_nodup s).sublist (List.drop_sublist _ _)
  rw [List.toFinset_card_of_nodup hnodup, List.length_drop, asc_list_length]

end Constraints

/-! ## ConstraintsBuilder (`ai-tournament/src/constraints.rs`) -/

/-- Embeds `enum AutoCpus`. -/
inductive AutoCpus where
  | auto : AutoCpus
  | count : Nat → AutoCpus
  | list : String → AutoCpus
  deriving DecidableEq

/-- Embeds `struct ConstraintsBuilder` (RAM amounts in MB, durations in
nanoseconds, exactly as the builder stores them before `build` scales). -/
structure ConstraintsBuilder where
  total_ram : Option Nat
  agent_ram : Option Nat
  cpus : AutoCpus
  cpus_per_agent : Option Nat
  time_budget : Option Nat
  action_time : Option Nat
  deriving DecidableEq

/-- `str::split(sep)` over the characters of a string: the (possibly empty)
chunks between occurrences of `sep`; the empty input yields one empty chunk,
as in Rust. -/
def split_on_char (sep : Char) : List Char → List (List Char)
  | [] => [[]]
  | x :: xs =>
    let r := split_on_char sep xs
    if x = sep then [] :: r
    else
      match r with
      | [] => [[x]]
      | h :: t => (x :: h) :: t

/-- Embeds `u8::from_str`: an optional leading plus sign, one or more ASCII
digits, value at most 255. -/
def parse_u8 (cs : List Char) : Option Nat :=
  let t := match cs with
    | '+' :: rest => rest
    | _ => cs
  if t ≠ [] ∧ t.all Char.isDigit then
    let v := t.foldl (fun acc c => acc * 10 + (c.toNat - 48)) 0
    if v ≤ 255 then some v else none
  else none

/-- Embeds `cpu_list_to_hashset`: comma-separated items, each a single `u8`
or an inclusive range `a-b` (reversed bounds are swapped). -/
def cpu_list_to_hashset (s : String) : Except String (Finset Nat) :=
  if s.data = [] then .error "Empty string" else
  (split_on_char ',' s.data).foldlM (fun set item =>
    match split_on_char '-' item with
    | [v] =>
      match parse_u8 v with
      | some n => Except.ok (insert n set)
      | none => Except.error "could not parse value"
    | [a, b] =>
      match parse_u8 a, parse_u8 b with
      | some lo, some hi => Except.ok (set ∪ Finset.Icc (min lo hi) (max lo hi))
      | _, _ => Except.error "could not parse range bound"
    | _ => Except.error "each comma-separated item must be a number or a range")
    (∅ : Finset Nat)

/-- Largest `Duration` in nanoseconds (`Duration::MAX`). -/
def durationMaxNanos : Nat := (2 ^ 64 - 1) * 1000000000 + 999999999

/-- The total RAM `build` settles on: the configured MB amount scaled to
bytes, or the `sysinfo` available-memory reading. -/
def effective_total_ram (b : ConstraintsBuilder) (available_memory : Nat) : Nat :=
  match b.total_ram with
  | some i => i * 1000000
  | none => available_memory

/-- The CPU set `build` settles on: physical cores (as `u8`), a configured
count (as `u8`), or the parsed CPU list. -/
def cpus_of (b : ConstraintsBuilder) (num_physical_cpus : Nat) : Except String (Finset Nat) :=
  match b.cpus with
  | .auto => Except.ok (Finset.range (num_physical_cpus % 256))
  | .count n => Except.ok (Finset.range (n % 256))
  | .list s => cpu_list_to_hashset s

/-- The per-agent RAM `build` settles on: the configured MB amount scaled to
bytes, or `total_ram / (cpus.len() / cpus_per_agent)` — whose division
panics (here: errors) when the divisor is zero. -/
def agent_ram_of (b : ConstraintsBuilder) (total_ram : Nat) (cpus : Finset Nat) :
    Except String Nat :=
  match b.agent_ram with
  | some i => Except.ok (i * 1000000)
  | none =>
    if cpus.card / (b.cpus_per_agent.getD 1) = 0 then
      Except.error "panicked: attempt to divide by zero"
    else Except.ok (total_ram / (cpus.card / (b.cpus_per_agent.getD 1)))

/-- Embeds `ConstraintsBuilder::build`.  The two `sysinfo`/`num_cpus`
environment readings are passed as arguments. -/
def build (b : ConstraintsBuilder) (available_memory num_physical_cpus : Nat) :
    Except String Constraints :=
  if effective_total_ram b available_memory < (b.agent_ram.getD 0) * 1000000 then
    Except.error "Agent RAM size is greater than total RAM"
  else
    (cpus_of b num_physical_cpus).bind fun cpus =>
    (agent_ram_of b (effective_total_ram b available_memory) cpus).bind fun agent_ram =>
    Except.ok { total_ram := effective_total_ram b available_memory, agent_ram := agent_ram,
                cpus := cpus, cpus_per_agent := b.cpus_per_agent.getD 1,
                time_budget := b.time_budget.getD durationMaxNanos,
                action_time := b.action_time.getD durationMaxNanos }

/-! ## Client handler and per-seat carving (`server/src/client_handler.rs`,
`server/src/match_runner.rs`) -/

/-- Embeds the two `assert_eq!` guards at the top of `ClientHandler::init`:
the slice must be exactly one seat's allocation. -/
def client_init_asserts (c : Constraints) : Bool :=
  c.total_ram == c.agent_ram && c.cpus.card == c.cpus_per_agent

/-- Embeds the carving loop of `run_match`: one `avail_res.take(num_cpus,
ram)` per seat, threading the shrinking pool.  `none` models a panic inside
`take`. -/
def carve : Constraints → Nat → Nat → Nat → Option (List Constraints × Constraints)
  | c, _, _, 0 => some ([], c)
  | c, num_cpus, ram, players + 1 =>
    (Constraints.take c num_cpus ram).bind fun sr =>
      (carve sr.2 num_cpus ram players).bind fun rest =>
        some (sr.1 :: rest.1, rest.2)

/-! ## Match runner (`server/src/match_runner.rs`) -/

/-- The `Game` trait operations the match runner consumes.  `applyAction`
returns the mutated game plus the `Result` flag (`true` for `Ok`);
`playerScore` embeds `get_player_score`. -/
structure GameI (γ : Type) (α : Type) where
  init : γ → γ
  isFinished : γ → Bool
  currentPlayer : γ → Nat
  applyAction : γ → Option α → γ × Bool
  playerScore : γ → Nat → Rat

/-- What one `send_and_recv` exchange produced, as seen by the turn loop:
an I/O or timeout error, bytes that are not UTF-8, UTF-8 text that does not
parse as an action, or a parsed action. -/
inductive ResponseOutcome (α : Type) where
  | commError : ResponseOutcome α
  | nonUtf8 : ResponseOutcome α
  | unparsable : ResponseOutcome α
  | action : α → ResponseOutcome α
  deriving DecidableEq

/-- The environment of one loop iteration: the client's response and the
wall-clock time `chrono_start.elapsed()` measured for the turn (ns). -/
structure TurnInput (α : Type) where
  response : ResponseOutcome α
  elapsed : Nat
  deriving DecidableEq

/-- The loop state of `run_match`: the game, the map of live clients
(keys of the `HashMap<usize, ClientHandler>`), and `time_budgets`. -/
structure RState (γ : Type) where
  game : γ
  clients : Finset Nat
  budgets : List Nat
  deriving DecidableEq

/-- Embeds Rust `Duration - Duration` (via `-=`), which panics when the
subtrahend is larger; `none` is the panic. -/
def checked_sub (a b : Nat) : Option Nat := if b ≤ a then some (a - b) else none

/-- The `if let Some(client) = clients.get_mut(&current)` block of one turn:
yields the updated client map, the action applied to the game (a parse
failure, non-UTF8 bytes, or an I/O or timeout error kills and removes the
client and applies `None`), and the `max_duration = min(action_timeout,
time_budget)` deadline handed to `send_and_recv` (`none` when the seat had
no live client and no exchange happened). -/
def seat_exchange {γ α : Type} (G : GameI γ α) (action_time : Nat) (st : RState γ)
    (inp : TurnInput α) : Finset Nat × Option α × Option Nat :=
  let current := G.currentPlayer st.game
  if current ∈ st.clients then
    match inp.response with
    | .action a => (st.clients, some a, some (min action_time (st.budgets.getD current 0)))
    | _ => (st.clients.erase current, none,
            some (min action_time (st.budgets.getD current 0)))
  else (st.clients, none, none)

/-- One iteration of the `run_match` turn loop.  Returns the next state and
the deadline handed to `send_and_recv` (`none` when the seat had no live
client), or `none` for a panic (out-of-bounds `time_budgets[current]`, or
the unchecked `time_budgets[current] -= elapsed` underflowing). -/
def turnStep {γ α : Type} (G : GameI γ α) (action_time : Nat) (st : RState γ)
    (inp : TurnInput α) : Option (RState γ × Option Nat) :=
  let current := G.currentPlayer st.game
  if current < st.budgets.length then
    let ex := seat_exchange G action_time st inp
    match checked_sub (st.budgets.getD current 0) inp.elapsed with
    | none => none
    | some tb1 =>
      some ({ game := (G.applyAction st.game ex.2.1).1,
              clients := ex.1,
              budgets := st.budgets.set current tb1 }, ex.2.2)
  else none

/-- The `while !game.is_finished() && clients.len() > 0` loop of `run_match`,
driven by a finite trace of per-turn environment inputs.  Returns the final
state and, per executed turn, the pre-state and the deadline used. -/
def runTurns {γ α : Type} (G : GameI γ α) (action_time : Nat) :
    List (TurnInput α) → RState γ → Option (RState γ × List (RState γ × Option Nat))
  | [], st => some (st, [])
  | inp :: rest, st =>
    if G.isFinished st.game ∨ st.clients.card = 0 then some (st, [])
    else
      (turnStep G action_time st inp).bind fun sd =>
        (runTurns G action_time rest sd.1).bind fun fin =>
          some (fin.1, (st, sd.2) :: fin.2)

/-- Embeds `struct MatchSettings` (players by agent id). -/
structure MatchSettings where
  ordered_player : List Nat
  resources : Constraints
  deriving DecidableEq

/-- Embeds `struct MatchResult`. -/
structure MatchResult where
  results : List (Nat × Rat)
  resources_freed : Constraints
  deriving DecidableEq

/-- Embeds `run_match`: carve one resource slice per seat, run the turn loop
(the startup successes are the `clients0` input, the per-turn responses and
elapsed times the `inputs` trace), then collect `get_player_score(i)` per
seat and return the settings' resources as `resources_freed`. -/
def runMatch {γ α : Type} (G : GameI γ α) (settings : MatchSettings) (g0 : γ)
    (clients0 : Finset Nat) (inputs : List (TurnInput α)) : Option MatchResult :=
  let players := settings.ordered_player.length
  (carve settings.resources settings.resources.cpus_per_agent
      settings.resources.agent_ram players).bind fun _slices =>
  (runTurns G settings.resources.action_time inputs
      { game := G.init g0, clients := clients0,
        budgets := List.replicate players settings.resources.time_budget }).bind fun fin =>
  some { results := settings.ordered_player.enum.map
           (fun ia => (ia.2, G.playerScore fin.1.game ia.1)),
         resources_freed := settings.resources }

/-! ## Tournament strategies (`src/tournament_strategy.rs`) -/

/-- Embeds `struct TwoPlayersGameScore` (all counters `u32`). -/
structure TwoPlayersGameScore where
  num_win : Nat
  num_draw : Nat
  num_lose : Nat
  tie_breaker : Nat
  deriving DecidableEq

/-- `TwoPlayersGameScore::default()`. -/
def defaultScore : TwoPlayersGameScore := ⟨0, 0, 0, 0⟩

/-- Embeds `struct RoundRobinTournament`.  The `HashMap` of scores is kept
as an association list in insertion order. -/
structure RoundRobinTournament where
  scores : List (Nat × TwoPlayersGameScore)
  agents : List Nat
  symmetric : Bool
  deriving DecidableEq

namespace RoundRobinTournament

/-- `self.scores.entry(agent).or_default()` followed by a field update. -/
def entry_update (m : List (Nat × TwoPlayersGameScore)) (a : Nat)
    (f : TwoPlayersGameScore → TwoPlayersGameScore) : List (Nat × TwoPlayersGameScore) :=
  if m.any (fun kv => kv.1 = a) then
    m.map (fun kv => if kv.1 = a then (kv.1, f kv.2) else kv)
  else
    m ++ [(a, f defaultScore)]

/-- `best_score` scan of one match result; `none` models the panicking
`match_result[0]` on an empty result. -/
def best_of (mr : List (Nat × Rat)) : Option Rat :=
  match mr with
  | [] => none
  | r0 :: rest => some (rest.foldl (fun b r => if b < r.2 then r.2 else b) r0.2)

/-- The per-result score update of `RoundRobinTournament::advance_round`. -/
def apply_result (sc : List (Nat × TwoPlayersGameScore)) (mr : List (Nat × Rat)) :
    Option (List (Nat × TwoPlayersGameScore)) :=
  (best_of mr).map fun best =>
    let is_draw := mr.all (fun r => r.2 = best)
    mr.foldl (fun sc r =>
      if is_draw then entry_update sc r.1 (fun s => { s with num_draw := s.num_draw + 1 })
      else if r.2 = best then entry_update sc r.1 (fun s => { s with num_win := s.num_win + 1 })
      else entry_update sc r.1 (fun s => { s with num_lose := s.num_lose + 1 })) sc

/-- Embeds `RoundRobinTournament::advance_round`: consume results, then — if
the score map is still empty — emit the `for i in 0..n { for j in i..n }`
pairings (self-pairs included, doubled when not symmetric). -/
def advance_round (t : RoundRobinTournament) (results : List (List (Nat × Rat))) :
    Option (RoundRobinTournament × List (List Nat)) :=
  (results.foldlM apply_result t.scores).map fun sc =>
    let t := { t with scores := sc }
    if t.scores ≠ [] then (t, [])
    else
      let n := t.agents.length
      let pending := (List.range n).flatMap (fun i =>
        (List.range' i (n - i)).flatMap (fun j =>
          [[t.agents.getD i 0, t.agents.getD j 0]] ++
          (if t.symmetric then [] else [[t.agents.getD j 0, t.agents.getD i 0]])))
      (t, pending)

end RoundRobinTournament

/-- One agent's Swiss card: score plus adversary set. -/
abbrev SwissEntry := TwoPlayersGameScore × Finset Nat

/-- The Swiss `HashMap<Agent, (score, advs)>`, kept as an association list
in insertion order. -/
abbrev ScoreMap := List (Nat × SwissEntry)

/-- Map lookup `self.scores[agent]`.  The callers below only look up keys
that are present (the source would panic otherwise); missing keys yield the
default entry. -/
def sc_get (sc : ScoreMap) (a : Nat) : SwissEntry :=
  ((sc.find? (fun kv => kv.1 = a)).map (fun kv => kv.2)).getD (defaultScore, ∅)

/-- `self.scores.contains_key(agent)`. -/
def sc_contains (sc : ScoreMap) (a : Nat) : Bool :=
  sc.any (fun kv => kv.1 = a)

/-- In-place update of one present key (`get_mut`). -/
def updAt (sc : ScoreMap) (a : Nat) (f : SwissEntry → SwissEntry) : ScoreMap :=
  sc.map (fun kv => if kv.1 = a then (kv.1, f kv.2) else kv)

/-- `self.scores.insert(agent, v)`: overwrite if present, append otherwise. -/
def sc_insert (sc : ScoreMap) (a : Nat) (v : SwissEntry) : ScoreMap :=
  if sc_contains sc a then sc.map (fun kv => if kv.1 = a then (kv.1, v) else kv)
  else sc ++ [(a, v)]

/-- Embeds `struct SwissTournament`. -/
structure SwissTournament where
  agents : List Nat
  round : Nat
  max_rounds : Nat
  num_match_per_pair : Nat
  scores : ScoreMap
  bye_history : Finset Nat
  deriving DecidableEq

namespace SwissTournament

/-- `SwissTournament::new`; `none` models the `assert!(num_match_per_pair >= 1)`. -/
def new (max_rounds num_match_per_pair : Nat) : Option SwissTournament :=
  if 1 ≤ num_match_per_pair then
    some ⟨[], 0, max_rounds, num_match_per_pair, [], ∅⟩
  else none

/-- Embeds `SwissTournament::add_agents`.  The `f32::log2(n).ceil()` auto
round count is modelled as the exact ceiling logarithm `Nat.clog 2 n` (the
two agree for every roster below 2^24 agents). -/
def add_agents (t : SwissTournament) (agents : List Nat) : SwissTournament :=
  { t with agents := agents,
           max_rounds := if t.max_rounds = 0 then Nat.clog 2 agents.length else t.max_rounds,
           scores := agents.foldl (fun sc a => sc_insert sc a (defaultScore, ∅)) t.scores }

/-- `f32::EPSILON`. -/
def eps32 : Rat := 1 / 8388608

/-- Step 1 of `update_scores`: group raw results by normalised pair key.
`none` models the two asserts (two-seat results, no self-play).  The
`HashMap` of pairs is an association list in insertion order. -/
def build_pairs (results : List (List (Nat × Rat))) :
    Option (List ((Nat × Nat) × List (Rat × Rat))) :=
  results.foldlM (fun acc result =>
    match result with
    | [(a, sa), (b, sb)] =>
      if a ≠ b then
        let key := if a < b then (a, b) else (b, a)
        let v := if a < b then (sa, sb) else (sb, sa)
        some (if acc.any (fun kv => kv.1 = key) then
                acc.map (fun kv => if kv.1 = key then (kv.1, kv.2 ++ [v]) else kv)
              else acc ++ [(key, [v])])
      else none
    | _ => none) []

/-- Step 2 of `update_scores` for one aggregated pair: fold the game scores,
decide win/draw/loss with the `f32::EPSILON` comparison, credit both cards
once, and record the adversaries. -/
def apply_pair (sc : ScoreMap) (kv : (Nat × Nat) × List (Rat × Rat)) : ScoreMap :=
  let a := kv.1.1
  let b := kv.1.2
  let sums := kv.2.foldl (fun acc s => (acc.1 + s.1, acc.2 + s.2)) ((0 : Rat), (0 : Rat))
  let is_draw := |sums.1 - sums.2| < eps32
  let sc :=
    if is_draw then
      updAt (updAt sc a (fun e => ({ e.1 with num_draw := e.1.num_draw + 1 }, e.2))) b
        (fun e => ({ e.1 with num_draw := e.1.num_draw + 1 }, e.2))
    else if sums.1 > sums.2 then
      updAt (updAt sc a (fun e => ({ e.1 with num_win := e.1.num_win + 1 }, e.2))) b
        (fun e => ({ e.1 with num_lose := e.1.num_lose + 1 }, e.2))
    else
      updAt (updAt sc a (fun e => ({ e.1 with num_lose := e.1.num_lose + 1 }, e.2))) b
        (fun e => ({ e.1 with num_win := e.1.num_win + 1 }, e.2))
  updAt (updAt sc a (fun e => (e.1, insert b e.2))) b (fun e => (e.1, insert a e.2))

/-- Embeds `SwissTournament::update_scores`; `none` also models the
`unwrap` panics on agents missing from the score map. -/
def update_scores (t : SwissTournament) (results : List (List (Nat × Rat))) :
    Option SwissTournament :=
  (build_pairs results).bind fun pairs =>
    if pairs.all (fun kv => sc_contains t.scores kv.1.1 && sc_contains t.scores kv.1.2) then
      some { t with scores := pairs.foldl apply_pair t.scores }
    else none

/-- Current Swiss points of an agent: `num_win * 2 + num_draw`. -/
def swiss_points (sc : ScoreMap) (a : Nat) : Nat :=
  (sc_get sc a).1.num_win * 2 + (sc_get sc a).1.num_draw

/-- The tie-breaker value `update_tie_breakers` computes for one agent from
the current map: adversary points, minus min and max, or 0 for at most one
adversary.  The `HashSet` of adversaries is iterated in sorted order. -/
def compute_tb (sc : ScoreMap) (a : Nat) : Nat :=
  let adv_scores := (asc_list (sc_get sc a).2).map (fun adv => swiss_points sc adv)
  let mn := adv_scores.min?.getD 0
  let mx := adv_scores.max?.getD 0
  if adv_scores.length ≤ 1 then 0 else adv_scores.sum - mn - mx

/-- One iteration of the `update_tie_breakers` loop: write agent `a`'s
tie-breaker, computed from the current map. -/
def utb_step (sc : ScoreMap) (a : Nat) : ScoreMap :=
  updAt sc a (fun e => ({ e.1 with tie_breaker := compute_tb sc a }, e.2))

/-- Embeds `SwissTournament::update_tie_breakers`: one in-place update per
roster agent, in roster order. -/
def update_tie_breakers (t : SwissTournament) : SwissTournament :=
  { t with scores := t.agents.foldl utb_step t.scores }

/-- `Vec::swap_remove`: overwrite index `j` with the last element, pop. -/
def swap_remove (l : List Nat) (j : Nat) : List Nat :=
  (l.set j (l.getLast?.getD 0)).dropLast

/-- The inner `for j in (i+1)..group.len()` scan: first index (and element)
from `j` on that has not played `a`. -/
def find_opponent (played : Nat → Nat → Bool) (g : List Nat) (a : Nat) (j : Nat) :
    Option (Nat × Nat) :=
  match (g.drop j).findIdx? (fun b => !played a b) with
  | some off => some (j + off, (g.drop j).getD off 0)
  | none => none

theorem swap_remove_length (l : List Nat) (j : Nat) :
    (swap_remove l j).length = l.length - 1 := by
  unfold swap_remove
  rw [List.length_dropLast, List.length_set]

/-- The `while i + 1 < group.len()` greedy pairing loop, with an explicit
iteration budget (`g.length - i` strictly decreases per iteration, so the
budget used in `pair_loop` is never exhausted); returns the pairs found (in
push order) and the residue of the group. -/
def pair_loop_fuel (played : Nat → Nat → Bool) :
    Nat → List Nat → Nat → List (List Nat) × List Nat
  | 0, g, _ => ([], g)
  | fuel + 1, g, i =>
    if i + 1 < g.length then
      let a := g.getD i 0
      match find_opponent played g a (i + 1) with
      | some jb =>
        let r := pair_loop_fuel played fuel (swap_remove (swap_remove g jb.1) i) i
        ([a, jb.2] :: r.1, r.2)
      | none => pair_loop_fuel played fuel g (i + 1)
    else ([], g)

/-- The pairing loop with its sufficient budget. -/
def pair_loop (played : Nat → Nat → Bool) (g : List Nat) (i : Nat) :
    List (List Nat) × List Nat :=
  pair_loop_fuel played (g.length - i) g i

/-- The descending score groups (`BTreeMap` grouping, reverse iteration):
distinct score keys in decreasing order, and per key the roster agents with
that score, in roster order. -/
def score_groups (t : SwissTournament) : List (List Nat) :=
  let keys := (asc_list (t.agents.map (swiss_points t.scores)).toFinset).reverse
  keys.map (fun k => t.agents.filter (fun a => swiss_points t.scores a = k))

/-- Award one bye: record it in `bye_history` and credit a free win. -/
def give_bye (t : SwissTournament) (agent : Nat) : SwissTournament :=
  { t with bye_history := insert agent t.bye_history,
           scores := updAt t.scores agent
             (fun e => ({ e.1 with num_win := e.1.num_win + 1 }, e.2)) }

/-- Embeds `SwissTournament::create_next_round_pairings`: pair within each
descending score group (floating leftovers downwards), then award a bye (a
free win, recorded in `bye_history`) to every remaining leftover. -/
def create_next_round_pairings (t : SwissTournament) : List (List Nat) × SwissTournament :=
  let played := fun a b => decide (b ∈ (sc_get t.scores a).2)
  let pr := (score_groups t).foldl (fun acc group =>
      let r := pair_loop played (group ++ acc.2) 0
      (acc.1 ++ r.1, r.2)) ([], [])
  (pr.1, pr.2.foldl give_bye t)

/-- Embeds `SwissTournament::advance_round`. -/
def advance_round (t : SwissTournament) (results : List (List (Nat × Rat))) :
    Option (SwissTournament × List (List Nat)) :=
  (update_scores t results).map fun t1 =>
    let t2 := update_tie_breakers t1
    if t2.round ≥ t2.max_rounds then (t2, [])
    else
      let pr := create_next_round_pairings t2
      ({ pr.2 with round := pr.2.round + 1 }, pr.1)

/-- Running a sequence of `advance_round` calls, collecting each call's
pairing output. -/
def run_trace (t : SwissTournament) :
    List (List (List (Nat × Rat))) → Option (SwissTournament × List (List (List Nat)))
  | [] => some (t, [])
  | batch :: rest =>
    (advance_round t batch).bind fun tr =>
      (run_trace tr.1 rest).bind fun fin =>
        some (fin.1, tr.2 :: fin.2)

end SwissTournament

/-- The tie-breaker formula as the specification words it: the sum of the
adversaries' Swiss points, minus their minimum and maximum, or 0 when there
is at most one adversary. -/
def spec_median_tb (pts : Nat → Nat) (advs : Finset Nat) : Nat :=
  if h : 2 ≤ advs.card then
    (advs.sum pts)
      - advs.inf' (Finset.card_pos.mp (by omega)) pts
      - advs.sup' (Finset.card_pos.mp (by omega)) pts
  else 0

/-! ## Tournament scheduler (`src/tournament_scheduler.rs`) -/

/-- The `TournamentStrategy` operations the scheduler consumes, as pure
functions of an abstract strategy state `σ` (scores fixed to `Rat`). -/
structure StrategyFun (σ : Type) where
  advanceRound : σ → List (List (Nat × Rat)) → σ × List (List Nat)
  playersPerMatch : σ → Nat

/-- Embeds `struct TournamentScheduler`. -/
structure TournamentScheduler (σ : Type) where
  scores : List (List (Nat × Rat))
  resources : Constraints
  pending_matches : List (List Nat)
  strategy : σ
  running_matches : Nat
  is_finished : Bool

/-- The `for v in self.pending_matches.drain(..)` loop of `advance`:
attempt `try_take` per pairing, emit `MatchSettings` on success, requeue on
failure.  Returns `(emitted, remaining, pool)`. -/
def drain_loop (cpuM ramM : Nat) :
    List (List Nat) → Constraints → List MatchSettings × List (List Nat) × Constraints
  | [], pool => ([], [], pool)
  | v :: rest, pool =>
    match Constraints.try_take pool cpuM ramM with
    | some sp =>
      let r := drain_loop cpuM ramM rest sp.2
      (⟨v, sp.1⟩ :: r.1, r.2.1, r.2.2)
    | none =>
      let r := drain_loop cpuM ramM rest pool
      (r.1, v :: r.2.1, r.2.2)

/-- The round-generation gate of `advance`: when nothing is pending, nothing
is running and the tournament is not finished, feed the accumulated scores
to the strategy; an empty answer finishes the tournament. -/
def generate_round {σ : Type} (S : StrategyFun σ) (t : TournamentScheduler σ) :
    TournamentScheduler σ :=
  if t.running_matches = 0 ∧ t.pending_matches = [] ∧ t.is_finished = false then
    let ar := S.advanceRound t.strategy t.scores
    if ar.2 = [] then
      { t with scores := [], strategy := ar.1, pending_matches := ar.2, is_finished := true }
    else
      { t with scores := [], strategy := ar.1, pending_matches := ar.2 }
  else t

/-- Embeds `TournamentScheduler::advance`. -/
def TournamentScheduler.advance {σ : Type} (S : StrategyFun σ) (t : TournamentScheduler σ) :
    TournamentScheduler σ × List MatchSettings :=
  let tm := generate_round S t
  let cpu_per_match := tm.resources.cpus_per_agent * S.playersPerMatch tm.strategy
  let ram_per_match := tm.resources.agent_ram * S.playersPerMatch tm.strategy
  let d := drain_loop cpu_per_match ram_per_match tm.pending_matches tm.resources
  ({ tm with pending_matches := d.2.1, resources := d.2.2,
             running_matches := tm.running_matches + d.1.length }, d.1)

/-! ## Claim C1 -/

/-- C1: the claim says the first symmetric round-robin round over n agents
emits exactly n(n-1)/2 pairings with no agent paired against itself.  The
code iterates `for j in i..n`, so for the roster `[1, 2]` the first
`advance_round` emits the three pairings `[1,1]`, `[1,2]`, `[2,2]` — one
self-pairing per agent — instead of the single pairing `[1,2]`.  This
contradicts the module's own documentation ("every agent plays every other
agent"). -/
theorem c1_roundrobin_first_round_self_pairs :
    (RoundRobinTournament.advance_round ⟨[], [1, 2], true⟩ []).map Prod.snd
      = some [[1, 1], [1, 2], [2, 2]] ∧
    ¬ ([[1, 1], [1, 2], [2, 2]] : List (List Nat)).length = 2 * (2 - 1) / 2 := by
  exact ⟨by decide, by decide⟩

/-! ## Claim C2 -/

/-- A one-player game that never finishes, used to exercise a single turn. -/
def c2_game : GameI Nat Unit :=
  ⟨id, fun _ => false, fun _ => 0, fun g _ => (g + 1, true), fun _ _ => 0⟩

/-- Match settings with a 1 ns cumulative budget. -/
def c2_settings : MatchSettings := ⟨[0], ⟨2, 2, {0}, 1, 1, 100⟩⟩

/-- C2: the claim says the per-turn budget subtraction is saturating and can
never panic.  The code runs `time_budgets[current] -= elapsed`, a plain
`Duration` subtraction that panics on underflow.  On a turn whose measured
elapsed time (2 ns) exceeds the seat's remaining budget (1 ns) the embedded
`run_match` hits that panic (`none`). -/
theorem c2_budget_subtraction_panics :
    runMatch c2_game c2_settings 0 {0} [⟨.action (), 2⟩] = none := by
  decide

/-! ## Claim C3 -/

/-- A one-player game lasting two turns whose `apply_action` rejects every
action. -/
def c3_game : GameI Nat Unit :=
  ⟨id, fun g => decide (2 ≤ g), fun _ => 0, fun g _ => (g + 1, false), fun _ _ => 0⟩

/-- C3: the claim says a `Some` action rejected by `apply_action` drops the
offending client so the seat receives `None` afterwards.  The code only
logs a warning.  Evaluating the turn loop on a game that rejects the seat's
action on turn one shows the client is still registered afterwards
(`clients = {0}`) and the seat is consulted again on turn two (a second
`send_and_recv` deadline is issued instead of `None`). -/
theorem c3_rejected_action_keeps_client :
    (runTurns c3_game 100 [⟨.action (), 1⟩, ⟨.action (), 1⟩] ⟨0, {0}, [100]⟩).map
        (fun r => (r.1.clients, r.2.map Prod.snd))
      = some ({0}, [some 100, some 99]) := by
  decide

theorem except_bind_ok {ε α β : Type} (a : α) (f : α → Except ε β) :
    (Except.ok a : Except ε α).bind f = f a := rfl

theorem except_bind_error {ε α β : Type} (e : ε) (f : α → Except ε β) :
    (Except.error e : Except ε α).bind f = (Except.error e : Except ε β) := rfl

/-! ## Claim C9 -/

/-- C9 counterexample: `build` accepts a configuration whose CPU set is
smaller than `cpus_per_agent` (CPU list "0" with two CPUs per agent), so the
claimed invariant `|cpus| >= cpus_per_agent` does not hold for every
successfully built `Constraints`. -/
theorem c9_counterexample :
    ((build ⟨some 1, some 1, .list "0", some 2, none, none⟩ 0 0).toOption.map
        (fun c => (c.cpus.card, c.cpus_per_agent)) = some (1, 2)) ∧ ¬ (2 ≤ 1) := by
  exact ⟨by decide, by decide⟩

/-- C9 (amended): `build` errors when the configured per-agent RAM exceeds
the total RAM and when the CPU list string is ill-formed, and every
`Constraints` it returns satisfies `agent_ram <= total_ram`; the
`|cpus| >= cpus_per_agent` part of the claim is dropped (see the
counterexample). -/
theorem c9_build_checks :
    (∀ (b : ConstraintsBuilder) (am pc a : Nat), b.agent_ram = some a →
      effective_total_ram b am < a * 1000000 → ∃ e, build b am pc = .error e) ∧
    (∀ (b : ConstraintsBuilder) (am pc : Nat) (s e : String),
      b.cpus = .list s → cpu_list_to_hashset s = .error e →
      ∃ e2, build b am pc = .error e2) ∧
    (∀ (b : ConstraintsBuilder) (am pc : Nat) (c : Constraints),
      build b am pc = .ok c → c.agent_ram ≤ c.total_ram) := by
  refine ⟨?_, ?_, ?_⟩
  · intro b am pc a ha hlt
    unfold build
    rw [ha]
    simp only [Option.getD_some]
    rw [if_pos hlt]
    exact ⟨_, rfl⟩
  · intro b am pc s e hc hparse
    unfold build
    by_cases hlt : effective_total_ram b am < (b.agent_ram.getD 0) * 1000000
    · rw [if_pos hlt]; exact ⟨_, rfl⟩
    · rw [if_neg hlt]
      have hcof : cpus_of b pc = Except.error e := by
        unfold cpus_of; rw [hc]; exact hparse
      rw [hcof, except_bind_error]
      exact ⟨_, rfl⟩
  · intro b am pc c h
    unfold build at h
    by_cases hlt : effective_total_ram b am < (b.agent_ram.getD 0) * 1000000
    · rw [if_pos hlt] at h; exact absurd h (by simp)
    · rw [if_neg hlt] at h
      cases hcpu : cpus_of b pc with
      | error e =>
        rw [hcpu, except_bind_error] at h
        exact absurd h (by simp)
      | ok cpus =>
        rw [hcpu, except_bind_ok] at h
        cases har : agent_ram_of b (effective_total_ram b am) cpus with
        | error e =>
          rw [har, except_bind_error] at h
          exact absurd h (by simp)
        | ok ar =>
          rw [har, except_bind_ok] at h
          simp only [Except.ok.injEq] at h
          subst h
          simp only
          unfold agent_ram_of at har
          cases hag : b.agent_ram with
          | some i =>
            rw [hag] at har hlt
            simp only [Except.ok.injEq] at har
            subst har
            simp only [Option.getD_some] at hlt
            exact Nat.le_of_not_lt hlt
          | none =>
            rw [hag] at har
            by_cases hdiv : cpus.card / (b.cpus_per_agent.getD 1) = 0
            · rw [if_pos hdiv] at har
              exact absurd har (by simp)
            · rw [if_neg hdiv] at har
              simp only [Except.ok.injEq] at har
              subst har
              exact Nat.div_le_self _ _

/-- C9 witness: the three parts of `c9_build_checks` at concrete inputs —
an over-budget per-agent RAM, an unparsable CPU list, and a successful
build. -/
theorem c9_build_checks_witness :
    (∃ e, build ⟨some 1, some 2, .auto, none, none, none⟩ 0 0 = .error e) ∧
    (∃ e2, build ⟨none, none, .list "x", none, none, none⟩ 0 0 = .error e2) ∧
    (∀ c, build ⟨some 2, some 1, .count 1, none, none, none⟩ 0 0 = .ok c →
      c.agent_ram ≤ c.total_ram) := by
  refine ⟨?_, ?_, ?_⟩
  · exact c9_build_checks.1 ⟨some 1, some 2, .auto, none, none, none⟩ 0 0 2 rfl (by decide)
  · exact c9_build_checks.2.1 ⟨none, none, .list "x", none, none, none⟩ 0 0 "x"
      "could not parse value" rfl rfl
  · exact fun c h => c9_build_checks.2.2 ⟨some 2, some 1, .count 1, none, none, none⟩ 0 0 c h

theorem option_bind_some {α β : Type} (a : α) (f : α → Option β) :
    (some a).bind f = f a := rfl

/-! ## Claim C4 -/

/-- C4: resource conservation — `run_match` returns exactly the resources of
the `MatchSettings` it consumed as `resources_freed`, and `Constraints::add`
of a slice handed out by `try_take` restores the pool to its pre-`try_take`
value (same CPU set, same RAM), so the scheduler's `on_result` gives back to
the pool exactly what match start removed. -/
theorem c4_resource_conservation :
    (∀ (γ α : Type) (G : GameI γ α) (settings : MatchSettings) (g0 : γ)
        (clients0 : Finset Nat) (inputs : List (TurnInput α)) (res : MatchResult),
      runMatch G settings g0 clients0 inputs = some res →
      res.resources_freed = settings.resources) ∧
    (∀ (pool : Constraints) (n r : Nat) (slice rest : Constraints),
      Constraints.try_take pool n r = some (slice, rest) →
      Constraints.add rest slice = pool) := by
  constructor
  · intro γ α G settings g0 clients0 inputs res h
    simp only [runMatch, Option.bind_eq_some] at h
    obtain ⟨a, _, b, _, heq⟩ := h
    cases heq
    rfl
  · exact fun pool n r slice rest h => Constraints.add_try_take pool n r slice rest h

/-- Game and settings for the C4 witness: an immediately finished solo game. -/
def c4_game : GameI Nat Unit := ⟨id, fun _ => true, fun _ => 0, fun g _ => (g, true), fun _ _ => 1⟩

/-- Settings for the C4 witness. -/
def c4_settings : MatchSettings := ⟨[5], ⟨3, 3, {0}, 1, 10, 10⟩⟩

/-- C4 witness: both halves of `c4_resource_conservation` at concrete
inputs. -/
theorem c4_resource_conservation_witness :
    (runMatch c4_game c4_settings 0 ∅ [] = some ⟨[(5, 1)], c4_settings.resources⟩) ∧
    (⟨[(5, 1)], c4_settings.resources⟩ : MatchResult).resources_freed = c4_settings.resources ∧
    Constraints.add ⟨6, 4, {1}, 1, 5, 5⟩ ⟨4, 4, {0}, 1, 5, 5⟩ = ⟨10, 4, {0, 1}, 1, 5, 5⟩ := by
  refine ⟨by decide, ?_, ?_⟩
  · exact c4_resource_conservation.1 Nat Unit c4_game c4_settings 0 ∅ [] _ (by decide)
  · exact c4_resource_conservation.2 ⟨10, 4, {0, 1}, 1, 5, 5⟩ 1 4 ⟨4, 4, {0}, 1, 5, 5⟩
      ⟨6, 4, {1}, 1, 5, 5⟩ (by decide)

/-! ## Claim C10 -/

theorem carve_ok : ∀ (players : Nat) (c : Constraints) (num ram : Nat),
    num = c.cpus_per_agent → ram = c.agent_ram →
    c.cpus.card = players * num → c.total_ram = players * ram →
    ∃ slices rest, carve c num ram players = some (slices, rest) ∧
      ∀ s ∈ slices, client_init_asserts s = true := by
  intro players
  induction players with
  | zero => exact fun c num ram _ _ _ _ => ⟨[], c, rfl, by simp⟩
  | succ p ih =>
    intro c num ram hnum hram hcard htot
    have hg : num ≤ c.cpus.card ∧ ram ≤ c.total_ram := by
      constructor
      · rw [hcard, Nat.succ_mul]; omega
      · rw [htot, Nat.succ_mul]; omega
    have htake : Constraints.take c num ram =
        some ({ c with total_ram := ram, cpus := (Constraints.takeCpus num c.cpus).1 },
              { c with total_ram := c.total_ram - ram,
                       cpus := (Constraints.takeCpus num c.cpus).2 }) := by
      unfold Constraints.take
      rw [if_pos hg]
    obtain ⟨slices, rest2, hcr, hall⟩ :=
      ih { c with total_ram := c.total_ram - ram,
                  cpus := (Constraints.takeCpus num c.cpus).2 } num ram hnum hram
        (by simp only [Constraints.takeCpus_snd_card]; rw [hcard, Nat.succ_mul]; omega)
        (by simp only; rw [htot, Nat.succ_mul]; omega)
    refine ⟨{ c with total_ram := ram, cpus := (Constraints.takeCpus num c.cpus).1 } :: slices,
            rest2, ?_, ?_⟩
    · show (Constraints.take c num ram).bind _ = _
      rw [htake, option_bind_some, hcr, option_bind_some]
    · intro s hs
      rcases List.mem_cons.mp hs with hh | ht
      · subst hh
        simp only [client_init_asserts, Bool.and_eq_true, beq_iff_eq]
        exact ⟨hram, by rw [Constraints.takeCpus_card num c.cpus hg.1, hnum]⟩
      · exact hall s ht

/-- C10: the `assert_eq!` guards at the top of `ClientHandler::init` pass
exactly when the slice is one seat's allocation (`total_ram == agent_ram`
and `|cpus| == cpus_per_agent`), and the per-seat slices `run_match` carves
with `take(cpus_per_agent, agent_ram)` from a match slice holding
`players * cpus_per_agent` CPUs (and the matching RAM, as handed out by the
scheduler) all satisfy both equalities — the carving succeeds and the
assertions never fire. -/
theorem c10_client_init_asserts_hold :
    (∀ c : Constraints, client_init_asserts c = true ↔
        (c.total_ram = c.agent_ram ∧ c.cpus.card = c.cpus_per_agent)) ∧
    (∀ (c : Constraints) (players : Nat),
        c.cpus.card = players * c.cpus_per_agent →
        c.total_ram = players * c.agent_ram →
        ∃ slices rest, carve c c.cpus_per_agent c.agent_ram players = some (slices, rest) ∧
          ∀ s ∈ slices, client_init_asserts s = true) := by
  constructor
  · intro c
    simp [client_init_asserts]
  · exact fun c players hcard htot => carve_ok players c _ _ rfl rfl hcard htot

/-- A single-seat slice for the C10 witness. -/
def c10_slice : Constraints := ⟨7, 7, {0}, 1, 9, 9⟩

/-- A two-seat match slice for the C10 witness. -/
def c10_match_slice : Constraints := ⟨4, 2, {0, 1}, 1, 9, 9⟩

/-- C10 witness: both halves of `c10_client_init_asserts_hold` at concrete
inputs. -/
theorem c10_client_init_asserts_hold_witness :
    (client_init_asserts c10_slice = true ↔
       (c10_slice.total_ram = c10_slice.agent_ram ∧
        c10_slice.cpus.card = c10_slice.cpus_per_agent)) ∧
    (∃ slices rest,
        carve c10_match_slice c10_match_slice.cpus_per_agent c10_match_slice.agent_ram 2
          = some (slices, rest) ∧
        ∀ s ∈ slices, client_init_asserts s = true) := by
  exact ⟨c10_client_init_asserts_hold.1 c10_slice,
         c10_client_init_asserts_hold.2 c10_match_slice 2 (by decide) (by decide)⟩

/-! ## Claim C8 -/

theorem seat_exchange_live {γ α : Type} (G : GameI γ α) (action_time : Nat)
    (st : RState γ) (inp : TurnInput α)
    (hc : G.currentPlayer st.game ∈ st.clients) :
    (seat_exchange G action_time st inp).2.2
      = some (min action_time (st.budgets.getD (G.currentPlayer st.game) 0)) := by
  unfold seat_exchange
  rw [if_pos hc]
  cases inp.response <;> rfl

theorem turnStep_snd {γ α : Type} (G : GameI γ α) (action_time : Nat)
    (st : RState γ) (inp : TurnInput α) (sd : RState γ × Option Nat)
    (h : turnStep G action_time st inp = some sd) :
    sd.2 = (seat_exchange G action_time st inp).2.2 := by
  unfold turnStep at h
  by_cases hlt : G.currentPlayer st.game < st.budgets.length
  · rw [if_pos hlt] at h
    cases hcs : checked_sub (st.budgets.getD (G.currentPlayer st.game) 0) inp.elapsed with
    | none => rw [hcs] at h; exact absurd h (by simp)
    | some tb1 =>
      rw [hcs] at h
      simp only [Option.some.injEq] at h
      rw [← h]
  · rw [if_neg hlt] at h
    exact absurd h (by simp)

/-- C8: on every executed turn whose current seat has a live client, the
deadline handed to `send_and_recv` is exactly
`min(action_timeout, remaining_budget[seat])`, with the remaining budget
read at the start of that turn. -/
theorem c8_send_deadline :
    ∀ (γ α : Type) (G : GameI γ α) (action_time : Nat) (inputs : List (TurnInput α))
      (st fin : RState γ) (log : List (RState γ × Option Nat)),
    runTurns G action_time inputs st = some (fin, log) →
    ∀ p ∈ log, G.currentPlayer p.1.game ∈ p.1.clients →
      p.2 = some (min action_time (p.1.budgets.getD (G.currentPlayer p.1.game) 0)) := by
  intro γ α G action_time inputs
  induction inputs with
  | nil =>
    intro st fin log h p hp
    simp only [runTurns, Option.some.injEq, Prod.mk.injEq] at h
    rw [← h.2] at hp
    exact absurd hp (List.not_mem_nil p)
  | cons inp rest ih =>
    intro st fin log h p hp
    unfold runTurns at h
    by_cases hex : G.isFinished st.game ∨ st.clients.card = 0
    · rw [if_pos hex] at h
      simp only [Option.some.injEq, Prod.mk.injEq] at h
      rw [← h.2] at hp
      exact absurd hp (List.not_mem_nil p)
    · rw [if_neg hex] at h
      rw [Option.bind_eq_some] at h
      obtain ⟨sd, hsd, h⟩ := h
      rw [Option.bind_eq_some] at h
      obtain ⟨f2, hf2, heq⟩ := h
      simp only [Option.some.injEq, Prod.mk.injEq] at heq
      obtain ⟨hfin, hlog⟩ := heq
      rw [← hlog] at hp
      rcases List.mem_cons.mp hp with hh | ht
      · subst hh
        intro hc
        rw [turnStep_snd G action_time st inp sd hsd]
        exact seat_exchange_live G action_time st inp hc
      · exact ih sd.1 f2.1 f2.2 (by rw [hf2]) p ht

/-- Game for the C8 witness: a one-turn solo game. -/
def c8_game : GameI Nat Unit :=
  ⟨id, fun g => decide (1 ≤ g), fun _ => 0, fun g _ => (g + 1, true), fun _ _ => 0⟩

/-- C8 witness: `c8_send_deadline` at a concrete one-turn run: the logged
deadline 50 equals `min 50 80`. -/
theorem c8_send_deadline_witness :
    ((⟨0, {0}, [80]⟩ : RState Nat), some (50 : Nat)).2
      = some (min 50 (((⟨0, {0}, [80]⟩ : RState Nat)).budgets.getD
          (c8_game.currentPlayer ((⟨0, {0}, [80]⟩ : RState Nat)).game) 0)) := by
  exact c8_send_deadline Nat Unit c8_game 50 [⟨.action (), 3⟩] ⟨0, {0}, [80]⟩ ⟨1, {0}, [77]⟩
    [(⟨0, {0}, [80]⟩, some 50)] (by decide) (⟨0, {0}, [80]⟩, some 50) (by decide) (by decide)

/-! ## Claim C7 -/

theorem try_take_none_iff (c : Constraints) (n r : Nat) :
    Constraints.try_take c n r = none ↔ (c.cpus.card < n ∨ c.total_ram < r) := by
  unfold Constraints.try_take
  by_cases hg : c.cpus.card ≥ n ∧ c.total_ram ≥ r
  · rw [if_pos hg]
    unfold Constraints.take
    rw [if_pos (And.intro hg.1 hg.2)]
    constructor
    · intro h; exact absurd h (by simp)
    · intro h; omega
  · rw [if_neg hg]
    constructor
    · intro _; omega
    · intro _; rfl

theorem try_take_pool_fields (c : Constraints) (n r : Nat) (slice rest : Constraints)
    (h : Constraints.try_take c n r = some (slice, rest)) :
    rest.cpus.card = c.cpus.card - n ∧ rest.total_ram = c.total_ram - r ∧
    rest.agent_ram = c.agent_ram ∧ rest.cpus_per_agent = c.cpus_per_agent := by
  unfold Constraints.try_take at h
  by_cases hg : c.cpus.card ≥ n ∧ c.total_ram ≥ r
  · rw [if_pos hg] at h
    obtain ⟨_, _, _, _, _, hpr, hpa, hpc, _, _, _, hpcpu, _, _⟩ :=
      Constraints.take_fields c n r slice rest h
    exact ⟨by rw [hpcpu, Constraints.takeCpus_snd_card], hpr, hpa, hpc⟩
  · rw [if_neg hg] at h
    exact absurd h (by simp)

theorem drain_loop_pool (cpuM ramM : Nat) (l : List (List Nat)) (pool : Constraints) :
    (drain_loop cpuM ramM l pool).2.2.cpus.card ≤ pool.cpus.card ∧
    (drain_loop cpuM ramM l pool).2.2.total_ram ≤ pool.total_ram ∧
    (drain_loop cpuM ramM l pool).2.2.agent_ram = pool.agent_ram ∧
    (drain_loop cpuM ramM l pool).2.2.cpus_per_agent = pool.cpus_per_agent := by
  induction l generalizing pool with
  | nil => exact ⟨le_refl _, le_refl _, rfl, rfl⟩
  | cons v rest ih =>
    simp only [drain_loop]
    cases htk : Constraints.try_take pool cpuM ramM with
    | some sp =>
      simp only
      obtain ⟨h1, h2, h3, h4⟩ := try_take_pool_fields pool cpuM ramM sp.1 sp.2 (by rw [htk])
      obtain ⟨i1, i2, i3, i4⟩ := ih sp.2
      exact ⟨by omega, by omega, by rw [i3, h3], by rw [i4, h4]⟩
    | none => simp only; exact ih pool

theorem drain_loop_rem_fail (cpuM ramM : Nat) (l : List (List Nat)) (pool : Constraints) :
    ∀ v ∈ (drain_loop cpuM ramM l pool).2.1,
      Constraints.try_take (drain_loop cpuM ramM l pool).2.2 cpuM ramM = none := by
  induction l generalizing pool with
  | nil => intro v hv; exact absurd hv (List.not_mem_nil v)
  | cons w rest ih =>
    intro v
    simp only [drain_loop]
    cases htk : Constraints.try_take pool cpuM ramM with
    | some sp =>
      simp only
      exact fun hv => ih sp.2 v hv
    | none =>
      simp only
      intro hv
      rcases List.mem_cons.mp hv with hh | ht
      · subst hh
        rw [try_take_none_iff] at htk ⊢
        obtain ⟨j1, j2, _, _⟩ := drain_loop_pool cpuM ramM rest pool
        omega
      · exact ih pool v ht

theorem drain_loop_allfail (cpuM ramM : Nat) (l : List (List Nat)) (pool : Constraints)
    (hfail : Constraints.try_take pool cpuM ramM = none) :
    drain_loop cpuM ramM l pool = ([], l, pool) := by
  induction l with
  | nil => rfl
  | cons v rest ih =>
    simp only [drain_loop, hfail, ih]

theorem drain_loop_count (cpuM ramM : Nat) (l : List (List Nat)) (pool : Constraints) :
    (drain_loop cpuM ramM l pool).1.length + (drain_loop cpuM ramM l pool).2.1.length
      = l.length := by
  induction l generalizing pool with
  | nil => rfl
  | cons v rest ih =>
    simp only [drain_loop]
    cases htk : Constraints.try_take pool cpuM ramM with
    | some sp =>
      have := ih sp.2
      simp only [List.length_cons]
      omega
    | none =>
      have := ih pool
      simp only [List.length_cons]
      omega

theorem generate_round_progress {σ : Type} (S : StrategyFun σ) (t : TournamentScheduler σ) :
    (generate_round S t).is_finished = true ∨ (generate_round S t).running_matches ≠ 0 ∨
      (generate_round S t).pending_matches ≠ [] := by
  unfold generate_round
  by_cases hg : t.running_matches = 0 ∧ t.pending_matches = [] ∧ t.is_finished = false
  · rw [if_pos hg]
    by_cases har : (S.advanceRound t.strategy t.scores).2 = []
    · rw [if_pos har]; exact Or.inl rfl
    · rw [if_neg har]; exact Or.inr (Or.inr har)
  · rw [if_neg hg]
    rcases Decidable.not_and_iff_or_not.mp hg with h1 | h23
    · exact Or.inr (Or.inl h1)
    · rcases Decidable.not_and_iff_or_not.mp h23 with h2 | h3
      · exact Or.inr (Or.inr h2)
      · exact Or.inl (by revert h3; cases t.is_finished <;> simp)

theorem generate_round_skip {σ : Type} (S : StrategyFun σ) (t : TournamentScheduler σ)
    (h : ¬(t.running_matches = 0 ∧ t.pending_matches = [] ∧ t.is_finished = false)) :
    generate_round S t = t := by
  unfold generate_round
  rw [if_neg h]

/-- C7: invoking `advance` a second time, with no intervening `on_result`
(no result recorded, no resources freed), returns an empty match vector and
leaves the whole scheduler state — pending queue, in-flight count, resource
pool, finished flag — unchanged. -/
theorem c7_advance_idempotent :
    ∀ (σ : Type) (S : StrategyFun σ) (t0 : TournamentScheduler σ),
      TournamentScheduler.advance S (TournamentScheduler.advance S t0).1
        = ((TournamentScheduler.advance S t0).1, []) := by
  intro σ S t0
  obtain ⟨tm, htm⟩ : ∃ x, generate_round S t0 = x := ⟨_, rfl⟩
  obtain ⟨cpuM, hcpuM⟩ : ∃ x, tm.resources.cpus_per_agent * S.playersPerMatch tm.strategy = x :=
    ⟨_, rfl⟩
  obtain ⟨ramM, hramM⟩ : ∃ x, tm.resources.agent_ram * S.playersPerMatch tm.strategy = x :=
    ⟨_, rfl⟩
  obtain ⟨d, hd⟩ : ∃ x, drain_loop cpuM ramM tm.pending_matches tm.resources = x := ⟨_, rfl⟩
  obtain ⟨post, hpostdef⟩ : ∃ p : TournamentScheduler σ,
      ({ tm with pending_matches := d.2.1, resources := d.2.2,
                 running_matches := tm.running_matches + d.1.length } : TournamentScheduler σ)
        = p := ⟨_, rfl⟩
  have hpost : (TournamentScheduler.advance S t0).1 = post := by
    simp only [TournamentScheduler.advance]
    rw [htm, hcpuM, hramM, hd, hpostdef]
  have hpr : post.running_matches = tm.running_matches + d.1.length := by rw [← hpostdef]
  have hpp : post.pending_matches = d.2.1 := by rw [← hpostdef]
  have hpres : post.resources = d.2.2 := by rw [← hpostdef]
  have hpf : post.is_finished = tm.is_finished := by rw [← hpostdef]
  have hps : post.strategy = tm.strategy := by rw [← hpostdef]
  -- the gate of the second call is closed
  have hng : ¬(post.running_matches = 0 ∧ post.pending_matches = [] ∧
      post.is_finished = false) := by
    have hprog := generate_round_progress S t0
    rw [htm] at hprog
    rcases hprog with hfin | hrun | hpend
    · intro hc
      rw [hpf, hfin] at hc
      exact absurd hc.2.2 (by simp)
    · intro hc
      rw [hpr] at hc
      omega
    · intro hc
      have hcount := drain_loop_count cpuM ramM tm.pending_matches tm.resources
      rw [hd] at hcount
      have hlen : tm.pending_matches.length ≠ 0 := by
        intro h0
        exact hpend (List.eq_nil_of_length_eq_zero h0)
      rw [hpr] at hc
      rw [hpp] at hc
      have hd21 : d.2.1.length = 0 := by rw [hc.2.1]; rfl
      omega
  have hgr2 : generate_round S post = post := generate_round_skip S post hng
  -- both calls use identical per-match resource requirements
  have hfields := drain_loop_pool cpuM ramM tm.pending_matches tm.resources
  rw [hd] at hfields
  have hcpu2 : post.resources.cpus_per_agent * S.playersPerMatch post.strategy = cpuM := by
    rw [hpres, hps, hfields.2.2.2, ← hcpuM]
  have hram2 : post.resources.agent_ram * S.playersPerMatch post.strategy = ramM := by
    rw [hpres, hps, hfields.2.2.1, ← hramM]
  -- the second drain moves nothing
  have hdrain2 : drain_loop cpuM ramM post.pending_matches post.resources
      = ([], post.pending_matches, post.resources) := by
    cases hp : post.pending_matches with
    | nil => rfl
    | cons v vs =>
      refine drain_loop_allfail cpuM ramM _ _ ?_
      have hfail := drain_loop_rem_fail cpuM ramM tm.pending_matches tm.resources v
      rw [hd] at hfail
      have hv : v ∈ d.2.1 := by
        rw [hpp] at hp
        rw [hp]
        exact List.mem_cons_self v vs
      rw [hpres]
      exact hfail hv
  rw [hpost]
  simp only [TournamentScheduler.advance]
  rw [hgr2, hcpu2, hram2, hdrain2]
  simp only [List.length_nil, Nat.add_zero]

/-! ## Claim C5 -/

theorem update_scores_fields (t : SwissTournament) (results : List (List (Nat × Rat)))
    (t1 : SwissTournament) (h : SwissTournament.update_scores t results = some t1) :
    t1.round = t.round ∧ t1.max_rounds = t.max_rounds ∧ t1.agents = t.agents := by
  unfold SwissTournament.update_scores at h
  rw [Option.bind_eq_some] at h
  obtain ⟨pairs, _, hq⟩ := h
  by_cases hall : (pairs.all fun kv =>
      sc_contains t.scores kv.1.1 && sc_contains t.scores kv.1.2) = true
  · rw [if_pos hall] at hq
    simp only [Option.some.injEq] at hq
    rw [← hq]
    exact ⟨rfl, rfl, rfl⟩
  · rw [if_neg hall] at hq
    exact absurd hq (by simp)

theorem give_bye_fold_fields (l : List Nat) (t : SwissTournament) :
    (l.foldl SwissTournament.give_bye t).round = t.round ∧
    (l.foldl SwissTournament.give_bye t).max_rounds = t.max_rounds ∧
    (l.foldl SwissTournament.give_bye t).agents = t.agents := by
  induction l generalizing t with
  | nil => exact ⟨rfl, rfl, rfl⟩
  | cons a l ih =>
    simp only [List.foldl_cons]
    exact ih (SwissTournament.give_bye t a)

theorem cnrp_fields (t : SwissTournament) :
    (SwissTournament.create_next_round_pairings t).2.round = t.round ∧
    (SwissTournament.create_next_round_pairings t).2.max_rounds = t.max_rounds := by
  unfold SwissTournament.create_next_round_pairings
  simp only
  obtain ⟨h1, h2, _⟩ := give_bye_fold_fields _ t
  exact ⟨h1, h2⟩

theorem advance_round_round (t : SwissTournament) (results : List (List (Nat × Rat)))
    (t' : SwissTournament) (out : List (List Nat))
    (h : SwissTournament.advance_round t results = some (t', out)) :
    t'.max_rounds = t.max_rounds ∧
    ((t'.round = t.round ∧ out = []) ∨ (t.round < t.max_rounds ∧ t'.round = t.round + 1)) := by
  unfold SwissTournament.advance_round at h
  rw [Option.map_eq_some'] at h
  obtain ⟨t1, hus, hf⟩ := h
  obtain ⟨hr1, hm1, _⟩ := update_scores_fields t results t1 hus
  simp only at hf
  by_cases hge : (SwissTournament.update_tie_breakers t1).round ≥
      (SwissTournament.update_tie_breakers t1).max_rounds
  · rw [if_pos hge] at hf
    have hge2 : t.max_rounds ≤ t.round := by
      have : t1.round ≥ t1.max_rounds := hge
      omega
    obtain ⟨h1, h2⟩ := Prod.mk.injEq .. ▸ hf
    constructor
    · rw [← h1]
      show t1.max_rounds = t.max_rounds
      exact hm1
    · left
      constructor
      · rw [← h1]
        show t1.round = t.round
        exact hr1
      · exact h2.symm
  · rw [if_neg hge] at hf
    have hlt : t.round < t.max_rounds := by
      have : ¬ t1.round ≥ t1.max_rounds := hge
      omega
    obtain ⟨h1, h2⟩ := Prod.mk.injEq .. ▸ hf
    obtain ⟨hc1, hc2⟩ := cnrp_fields (SwissTournament.update_tie_breakers t1)
    constructor
    · rw [← h1]
      show (SwissTournament.create_next_round_pairings
        (SwissTournament.update_tie_breakers t1)).2.max_rounds = t.max_rounds
      rw [hc2]
      exact hm1
    · right
      refine ⟨hlt, ?_⟩
      rw [← h1]
      show (SwissTournament.create_next_round_pairings
        (SwissTournament.update_tie_breakers t1)).2.round + 1 = t.round + 1
      rw [hc1]
      show t1.round + 1 = t.round + 1
      omega

theorem run_trace_bound (batches : List (List (List (Nat × Rat)))) :
    ∀ (t tf : SwissTournament) (outs : List (List (List Nat))),
    SwissTournament.run_trace t batches = some (tf, outs) →
    t.round ≤ t.max_rounds →
    t.round + (outs.filter (fun o => !o.isEmpty)).length ≤ t.max_rounds := by
  induction batches with
  | nil =>
    intro t tf outs h hin
    simp only [SwissTournament.run_trace, Option.some.injEq, Prod.mk.injEq] at h
    rw [← h.2]
    simpa using hin
  | cons batch rest ih =>
    intro t tf outs h hin
    unfold SwissTournament.run_trace at h
    rw [Option.bind_eq_some] at h
    obtain ⟨tr, htr, h⟩ := h
    rw [Option.bind_eq_some] at h
    obtain ⟨fin2, hrt, heq⟩ := h
    simp only [Option.some.injEq, Prod.mk.injEq] at heq
    obtain ⟨hmax, hdisj⟩ := advance_round_round t batch tr.1 tr.2 (by rw [htr])
    rw [← heq.2]
    rcases hdisj with ⟨hr, hout⟩ | ⟨hlt, hr⟩
    · have hchain := ih tr.1 fin2.1 fin2.2 (by rw [hrt]) (by rw [hr, hmax]; exact hin)
      rw [hout]
      simp only [List.filter_cons]
      norm_num
      omega
    · have hchain := ih tr.1 fin2.1 fin2.2 (by rw [hrt]) (by rw [hr, hmax]; omega)
      have hcnt : ((tr.2 :: fin2.2).filter (fun o => !o.isEmpty)).length ≤
          1 + (fin2.2.filter (fun o => !o.isEmpty)).length := by
        simp only [List.filter_cons]
        split
        · simp only [List.length_cons]; omega
        · omega
      omega

theorem run_trace_empty_after (batches : List (List (List (Nat × Rat)))) :
    ∀ (t tf : SwissTournament) (outs : List (List (List Nat))),
    SwissTournament.run_trace t batches = some (tf, outs) →
    ∀ k (hk : k < outs.length),
      t.max_rounds ≤ t.round + ((outs.take k).filter (fun o => !o.isEmpty)).length →
      outs.get ⟨k, hk⟩ = [] := by
  induction batches with
  | nil =>
    intro t tf outs h k hk
    simp only [SwissTournament.run_trace, Option.some.injEq, Prod.mk.injEq] at h
    rw [← h.2] at hk
    exact absurd hk (by simp)
  | cons batch rest ih =>
    intro t tf outs h k hk
    unfold SwissTournament.run_trace at h
    rw [Option.bind_eq_some] at h
    obtain ⟨tr, htr, h⟩ := h
    rw [Option.bind_eq_some] at h
    obtain ⟨fin2, hrt, heq⟩ := h
    simp only [Option.some.injEq, Prod.mk.injEq] at heq
    obtain ⟨hmax, hdisj⟩ := advance_round_round t batch tr.1 tr.2 (by rw [htr])
    obtain ⟨heq1, heq2⟩ := heq
    subst heq2
    cases k with
    | zero =>
      intro hcond
      simp only [List.take_zero, List.filter_nil, List.length_nil, Nat.add_zero] at hcond
      rcases hdisj with ⟨_, hout⟩ | ⟨hlt, _⟩
      · exact hout
      · omega
    | succ k =>
      intro hcond
      have hk2 : k < fin2.2.length := by
        simpa using hk
      show (tr.2 :: fin2.2).get ⟨k + 1, hk⟩ = []
      rw [List.get_cons_succ]
      refine ih tr.1 fin2.1 fin2.2 (by rw [hrt]) k hk2 ?_
      rw [hmax]
      rcases hdisj with ⟨hr, hout⟩ | ⟨hlt, hr⟩
      · rw [hr]
        simp only [List.take_succ_cons, List.filter_cons, hout] at hcond
        simpa using hcond
      · rw [hr]
        have : ((tr.2 :: fin2.2.take k).filter (fun o => !o.isEmpty)).length ≤
            1 + ((fin2.2.take k).filter (fun o => !o.isEmpty)).length := by
          simp only [List.filter_cons]
          split
          · simp only [List.length_cons]; omega
          · omega
        simp only [List.take_succ_cons] at hcond
        omega

/-- C5: Swiss termination: starting from `new(max_rounds, m)` followed by
`add_agents` on `n` agents, with `r = max_rounds` when `max_rounds >= 1` and
`r = ceil(log2 n)` when `max_rounds = 0`, any successful sequence of
`advance_round` calls contains at most `r` calls returning a non-empty
pairing list, and every call made after `r` non-empty calls returns the
empty list. -/
theorem c5_swiss_termination :
    ∀ (m nmpp : Nat) (t0 : SwissTournament) (agents : List Nat)
      (batches : List (List (List (Nat × Rat)))) (tf : SwissTournament)
      (outs : List (List (List Nat))),
    SwissTournament.new m nmpp = some t0 →
    SwissTournament.run_trace (SwissTournament.add_agents t0 agents) batches
      = some (tf, outs) →
    ((outs.filter (fun o => !o.isEmpty)).length ≤
        (if 1 ≤ m then m else Nat.clog 2 agents.length)) ∧
    (∀ k (hk : k < outs.length),
      (if 1 ≤ m then m else Nat.clog 2 agents.length) ≤
        ((outs.take k).filter (fun o => !o.isEmpty)).length →
      outs.get ⟨k, hk⟩ = []) := by
  intro m nmpp t0 agents batches tf outs hnew htrace
  have ht0 : t0.round = 0 ∧ t0.max_rounds = m := by
    unfold SwissTournament.new at hnew
    by_cases h1 : 1 ≤ nmpp
    · rw [if_pos h1] at hnew
      simp only [Option.some.injEq] at hnew
      rw [← hnew]
      exact ⟨rfl, rfl⟩
    · rw [if_neg h1] at hnew
      exact absurd hnew (by simp)
  have hs0r : (SwissTournament.add_agents t0 agents).round = 0 := ht0.1
  have hs0m : (SwissTournament.add_agents t0 agents).max_rounds
      = (if 1 ≤ m then m else Nat.clog 2 agents.length) := by
    show (if t0.max_rounds = 0 then Nat.clog 2 agents.length else t0.max_rounds) = _
    rw [ht0.2]
    cases m with
    | zero => simp
    | succ m => simp
  constructor
  · have := run_trace_bound batches (SwissTournament.add_agents t0 agents) tf outs htrace
      (by rw [hs0r]; exact Nat.zero_le _)
    rw [hs0r, hs0m] at this
    omega
  · intro k hk hcond
    refine run_trace_empty_after batches (SwissTournament.add_agents t0 agents) tf outs
      htrace k hk ?_
    rw [hs0r, hs0m]
    omega

/-! ## Claim C6 -/

namespace SwissTournament

theorem updAt_pred (a : Nat) (f : SwissEntry → SwissEntry) (x : Nat) :
    ((fun kv : Nat × SwissEntry => decide (kv.1 = x)) ∘
        (fun kv : Nat × SwissEntry => if kv.1 = a then (kv.1, f kv.2) else kv))
      = (fun kv : Nat × SwissEntry => decide (kv.1 = x)) := by
  funext kv
  by_cases hk : kv.1 = a
  · simp [hk]
  · simp [hk]

theorem sc_get_updAt_ne (sc : ScoreMap) (a : Nat) (f : SwissEntry → SwissEntry)
    (x : Nat) (h : x ≠ a) : sc_get (updAt sc a f) x = sc_get sc x := by
  unfold sc_get updAt
  rw [List.find?_map, updAt_pred a f x]
  cases hf : sc.find? (fun kv => decide (kv.1 = x)) with
  | none => rfl
  | some kv =>
    have hkx : kv.1 = x := by simpa using List.find?_some hf
    simp only [Option.map_some', Option.getD_some]
    rw [if_neg (by rw [hkx]; exact fun hc => h hc)]

theorem sc_get_updAt_self (sc : ScoreMap) (a : Nat) (f : SwissEntry → SwissEntry)
    (h : sc_contains sc a = true) : sc_get (updAt sc a f) a = f (sc_get sc a) := by
  unfold sc_get updAt
  rw [List.find?_map, updAt_pred a f a]
  have hsome : ∃ kv, sc.find? (fun kv => decide (kv.1 = a)) = some kv := by
    unfold sc_contains at h
    rw [List.any_eq_true] at h
    obtain ⟨kv, hkv, hp⟩ := h
    have hs : (sc.find? (fun kv : Nat × SwissEntry => decide (kv.1 = a))).isSome :=
      List.find?_isSome.mpr ⟨kv, hkv, hp⟩
    exact Option.isSome_iff_exists.mp hs
  obtain ⟨kv, hf⟩ := hsome
  have hka : kv.1 = a := by simpa using List.find?_some hf
  rw [hf]
  simp only [Option.map_some', Option.getD_some]
  rw [if_pos hka]

theorem updAt_not_contains (sc : ScoreMap) (a : Nat) (f : SwissEntry → SwissEntry)
    (h : sc_contains sc a = false) : updAt sc a f = sc := by
  unfold updAt
  unfold sc_contains at h
  rw [List.any_eq_false] at h
  have : ∀ kv ∈ sc, (if kv.1 = a then (kv.1, f kv.2) else kv) = kv := by
    intro kv hkv
    rw [if_neg (by simpa using h kv hkv)]
  rw [List.map_congr_left this]
  simp

theorem sc_contains_updAt (sc : ScoreMap) (a : Nat) (f : SwissEntry → SwissEntry)
    (x : Nat) : sc_contains (updAt sc a f) x = sc_contains sc x := by
  unfold sc_contains updAt
  rw [List.any_map, updAt_pred a f x]

theorem sc_get_not_contains (sc : ScoreMap) (a : Nat) (h : sc_contains sc a = false) :
    sc_get sc a = (defaultScore, ∅) := by
  unfold sc_get
  unfold sc_contains at h
  rw [List.any_eq_false] at h
  rw [List.find?_eq_none.mpr (fun kv hkv => by simpa using h kv hkv)]
  rfl

/-- The fields of one entry other than the tie-breaker, as read through
`sc_get`: the Swiss points and the adversary set. -/
theorem utb_step_preserve (sc : ScoreMap) (b x : Nat) :
    swiss_points (utb_step sc b) x = swiss_points sc x ∧
    (sc_get (utb_step sc b) x).2 = (sc_get sc x).2 := by
  unfold utb_step swiss_points
  by_cases hx : x = b
  · subst hx
    by_cases hc : sc_contains sc x
    · rw [sc_get_updAt_self sc x _ hc]
      exact ⟨rfl, rfl⟩
    · rw [updAt_not_contains sc x _ (by simpa using hc)]
      exact ⟨rfl, rfl⟩
  · rw [sc_get_updAt_ne sc b _ x hx]
    exact ⟨rfl, rfl⟩

theorem compute_tb_congr (sc sc2 : ScoreMap) (a : Nat)
    (hpts : ∀ x, swiss_points sc x = swiss_points sc2 x)
    (hadv : (sc_get sc a).2 = (sc_get sc2 a).2) :
    compute_tb sc a = compute_tb sc2 a := by
  unfold compute_tb
  rw [hadv]
  have hmap : (asc_list (sc_get sc2 a).2).map (fun adv => swiss_points sc adv)
      = (asc_list (sc_get sc2 a).2).map (fun adv => swiss_points sc2 adv) := by
    exact List.map_congr_left (fun x _ => hpts x)
  rw [hmap]

theorem utb_fold_preserve (l : List Nat) (sc : ScoreMap) (x : Nat) :
    swiss_points (l.foldl utb_step sc) x = swiss_points sc x ∧
    (sc_get (l.foldl utb_step sc) x).2 = (sc_get sc x).2 := by
  induction l generalizing sc with
  | nil => exact ⟨rfl, rfl⟩
  | cons b l ih =>
    simp only [List.foldl_cons]
    obtain ⟨i1, i2⟩ := ih (utb_step sc b)
    obtain ⟨j1, j2⟩ := utb_step_preserve sc b x
    exact ⟨by rw [i1, j1], by rw [i2, j2]⟩

theorem utb_fold_notmem (l : List Nat) (sc : ScoreMap) (x : Nat) (hx : x ∉ l) :
    sc_get (l.foldl utb_step sc) x = sc_get sc x := by
  induction l generalizing sc with
  | nil => rfl
  | cons b l ih =>
    simp only [List.foldl_cons]
    have hxb : x ≠ b := fun hc => hx (hc ▸ List.mem_cons_self b l)
    have hxl : x ∉ l := fun hc => hx (List.mem_cons_of_mem b hc)
    rw [ih (utb_step sc b) hxl]
    exact sc_get_updAt_ne sc b _ x hxb

theorem compute_tb_default (sc : ScoreMap) (a : Nat) (h : sc_contains sc a = false) :
    compute_tb sc a = 0 := by
  unfold compute_tb
  rw [sc_get_not_contains sc a h]
  rfl

theorem utb_fold_tb (l : List Nat) (sc : ScoreMap) (a : Nat) (ha : a ∈ l) :
    (sc_get (l.foldl utb_step sc) a).1.tie_breaker = compute_tb sc a := by
  induction l generalizing sc with
  | nil => exact absurd ha (List.not_mem_nil a)
  | cons b l ih =>
    simp only [List.foldl_cons]
    by_cases hal : a ∈ l
    · rw [ih (utb_step sc b) hal]
      obtain ⟨j1, j2⟩ := utb_step_preserve sc b a
      exact compute_tb_congr (utb_step sc b) sc a (fun x => (utb_step_preserve sc b x).1) j2
    · have hab : a = b := by
        rcases List.mem_cons.mp ha with h | h
        · exact h
        · exact absurd h hal
      subst hab
      rw [utb_fold_notmem l (utb_step sc a) a hal]
      unfold utb_step
      by_cases hc : sc_contains sc a
      · rw [sc_get_updAt_self sc a _ hc]
      · rw [updAt_not_contains sc a _ (by simpa using hc)]
        rw [sc_get_not_contains sc a (by simpa using hc), compute_tb_default sc a
          (by simpa using hc)]
        rfl

theorem give_bye_scores (t : SwissTournament) (b x : Nat) :
    (sc_get (give_bye t b).scores x).1.tie_breaker = (sc_get t.scores x).1.tie_breaker ∧
    (sc_get (give_bye t b).scores x).2 = (sc_get t.scores x).2 := by
  unfold give_bye
  simp only
  by_cases hx : x = b
  · subst hx
    by_cases hc : sc_contains t.scores x
    · rw [sc_get_updAt_self t.scores x _ hc]
      exact ⟨rfl, rfl⟩
    · rw [updAt_not_contains t.scores x _ (by simpa using hc)]
      exact ⟨rfl, rfl⟩
  · rw [sc_get_updAt_ne t.scores b _ x hx]
    exact ⟨rfl, rfl⟩

theorem give_bye_fold_scores (l : List Nat) (t : SwissTournament) (x : Nat) :
    (sc_get (l.foldl give_bye t).scores x).1.tie_breaker
      = (sc_get t.scores x).1.tie_breaker ∧
    (sc_get (l.foldl give_bye t).scores x).2 = (sc_get t.scores x).2 := by
  induction l generalizing t with
  | nil => exact ⟨rfl, rfl⟩
  | cons b l ih =>
    simp only [List.foldl_cons]
    obtain ⟨i1, i2⟩ := ih (give_bye t b)
    obtain ⟨j1, j2⟩ := give_bye_scores t b x
    exact ⟨by rw [i1, j1], by rw [i2, j2]⟩

theorem cnrp_scores (t : SwissTournament) (x : Nat) :
    (sc_get (create_next_round_pairings t).2.scores x).1.tie_breaker
      = (sc_get t.scores x).1.tie_breaker ∧
    (sc_get (create_next_round_pairings t).2.scores x).2 = (sc_get t.scores x).2 := by
  unfold create_next_round_pairings
  simp only
  exact give_bye_fold_scores _ t x

theorem compute_tb_eq_spec (sc : ScoreMap) (a : Nat) :
    compute_tb sc a = spec_median_tb (swiss_points sc) ((sc_get sc a).2) := by
  unfold compute_tb spec_median_tb
  have hlen : ((asc_list (sc_get sc a).2).map (fun adv => swiss_points sc adv)).length
      = (sc_get sc a).2.card := by
    rw [List.length_map, asc_list_length]
  by_cases hc : 2 ≤ (sc_get sc a).2.card
  · rw [dif_pos hc]
    have hne : (sc_get sc a).2.Nonempty := Finset.card_pos.mp (by omega)
    rw [if_neg (by omega)]
    have hsum : ((asc_list (sc_get sc a).2).map (fun adv => swiss_points sc adv)).sum
        = (sc_get sc a).2.sum (swiss_points sc) := by
      conv_rhs => rw [← asc_list_toFinset (sc_get sc a).2]
      rw [List.sum_toFinset _ (asc_list_nodup _)]
    have hmin : ((asc_list (sc_get sc a).2).map (fun adv => swiss_points sc adv)).min?
        = some ((sc_get sc a).2.inf' hne (swiss_points sc)) := by
      rw [List.min?_eq_some_iff']
      constructor
      · obtain ⟨i, hi, heq⟩ := Finset.exists_mem_eq_inf' hne (swiss_points sc)
        rw [heq]
        exact List.mem_map.mpr ⟨i, (mem_asc_list _ i).mpr hi, rfl⟩
      · intro b hb
        obtain ⟨j, hj, heq⟩ := List.mem_map.mp hb
        rw [← heq]
        exact Finset.inf'_le (swiss_points sc) ((mem_asc_list _ j).mp hj)
    have hmax : ((asc_list (sc_get sc a).2).map (fun adv => swiss_points sc adv)).max?
        = some ((sc_get sc a).2.sup' hne (swiss_points sc)) := by
      rw [List.max?_eq_some_iff']
      constructor
      · obtain ⟨i, hi, heq⟩ := Finset.exists_mem_eq_sup' hne (swiss_points sc)
        rw [heq]
        exact List.mem_map.mpr ⟨i, (mem_asc_list _ i).mpr hi, rfl⟩
      · intro b hb
        obtain ⟨j, hj, heq⟩ := List.mem_map.mp hb
        rw [← heq]
        exact Finset.le_sup' (swiss_points sc) ((mem_asc_list _ j).mp hj)
    rw [hsum, hmin, hmax]
    rfl
  · rw [dif_neg hc, if_pos (by omega)]

/-- C6 (amended): after every completed `advance_round` call, each roster
agent's tie-breaker equals the Median formula — the sum of the adversaries'
Swiss points minus their minimum and maximum, 0 for at most one adversary —
evaluated on the points as they stood right after result aggregation
(`update_scores`) and before the byes of the same call were credited; the
original claim read the points off the post-call state, which the byes may
have moved. -/
theorem c6_tie_breaker_prebye :
    ∀ (t : SwissTournament) (results : List (List (Nat × Rat)))
      (t2 : SwissTournament) (out : List (List Nat)),
    SwissTournament.advance_round t results = some (t2, out) →
    ∀ a ∈ t.agents, ∃ t1, SwissTournament.update_scores t results = some t1 ∧
      (sc_get t2.scores a).1.tie_breaker
        = spec_median_tb (SwissTournament.swiss_points t1.scores) ((sc_get t2.scores a).2) ∧
      ((sc_get t2.scores a).2.card ≤ 1 → (sc_get t2.scores a).1.tie_breaker = 0) := by
  intro t results t2 out h a ha
  unfold SwissTournament.advance_round at h
  rw [Option.map_eq_some'] at h
  obtain ⟨t1, hus, hf⟩ := h
  obtain ⟨_, _, hagents⟩ := update_scores_fields t results t1 hus
  have ha1 : a ∈ t1.agents := by rw [hagents]; exact ha
  refine ⟨t1, hus, ?_⟩
  have hutb_tb : (sc_get (SwissTournament.update_tie_breakers t1).scores a).1.tie_breaker
      = SwissTournament.compute_tb t1.scores a :=
    utb_fold_tb t1.agents t1.scores a ha1
  have hutb_adv : (sc_get (SwissTournament.update_tie_breakers t1).scores a).2
      = (sc_get t1.scores a).2 :=
    (utb_fold_preserve t1.agents t1.scores a).2
  have hmain : (sc_get t2.scores a).1.tie_breaker
      = SwissTournament.compute_tb t1.scores a ∧
      (sc_get t2.scores a).2 = (sc_get t1.scores a).2 := by
    by_cases hge : (SwissTournament.update_tie_breakers t1).round ≥
        (SwissTournament.update_tie_breakers t1).max_rounds
    · rw [if_pos hge] at hf
      obtain ⟨h1, _⟩ := Prod.mk.injEq .. ▸ hf
      rw [← h1]
      exact ⟨hutb_tb, hutb_adv⟩
    · rw [if_neg hge] at hf
      obtain ⟨h1, _⟩ := Prod.mk.injEq .. ▸ hf
      rw [← h1]
      show ((sc_get (SwissTournament.create_next_round_pairings
          (SwissTournament.update_tie_breakers t1)).2.scores a).1.tie_breaker = _) ∧
        ((sc_get (SwissTournament.create_next_round_pairings
          (SwissTournament.update_tie_breakers t1)).2.scores a).2 = _)
      obtain ⟨c1, c2⟩ := cnrp_scores (SwissTournament.update_tie_breakers t1) a
      exact ⟨by rw [c1, hutb_tb], by rw [c2, hutb_adv]⟩
  constructor
  · rw [hmain.1, hmain.2]
    exact compute_tb_eq_spec t1.scores a
  · intro hcard
    rw [hmain.2] at hcard
    rw [hmain.1, compute_tb_eq_spec t1.scores a]
    unfold spec_median_tb
    rw [dif_neg (by omega)]

end SwissTournament

/-- A fresh Swiss tournament, `new(5, 1)`. -/
def c6cx_t0 : SwissTournament := ⟨[], 0, 5, 1, [], ∅⟩

/-- Six two-player results over the roster `[0, 1, 2, 3]`: agent 0 beats
everyone, 1 beats 2 and 3, 2 beats 3. -/
def c6cx_batch : List (List (Nat × Rat)) :=
  [[(0, 1), (1, 0)], [(2, 1), (3, 0)], [(0, 1), (2, 0)], [(0, 1), (3, 0)],
   [(1, 1), (2, 0)], [(1, 1), (3, 0)]]

/-- One `advance_round` call on those results.  Every agent has now met
every other, so the pairing phase gives all four agents a bye (a free
win) — after the tie-breakers were computed. -/
def c6cx_run : Option (SwissTournament × List (List Nat)) :=
  SwissTournament.advance_round (SwissTournament.add_agents c6cx_t0 [0, 1, 2, 3]) c6cx_batch

set_option maxRecDepth 20000 in
unseal Rat.add Rat.sub Rat.inv Rat.mul in
/-- C6 counterexample: after this `advance_round` call, agent 2's stored
tie-breaker is 4, but the claimed formula — adversary Swiss points of the
post-call state, summed minus min and max — evaluates to 6, because the four
byes awarded during the same call each added a win (2 points) after
`update_tie_breakers` ran.  So the claim as stated is false. -/
theorem c6_counterexample :
    (c6cx_run.map (fun p => ((sc_get p.1.scores 2).1.tie_breaker,
        spec_median_tb (SwissTournament.swiss_points p.1.scores) ((sc_get p.1.scores 2).2))))
      = some (4, 6) ∧ (4 : Nat) ≠ 6 := by
  exact ⟨by decide, by decide⟩

/-- A two-agent Swiss state for the C6 witness, as produced by `new(1, 1)`
followed by `add_agents([0, 1])`. -/
def c6w_t0 : SwissTournament :=
  ⟨[0, 1], 0, 1, 1, [(0, (defaultScore, ∅)), (1, (defaultScore, ∅))], ∅⟩

/-- The result of one `advance_round` call on `c6w_t0` with no results. -/
def c6w_pair : SwissTournament × List (List Nat) :=
  (SwissTournament.advance_round c6w_t0 []).getD (c6w_t0, [])

/-- C6 witness: `c6_tie_breaker_prebye` applied to the concrete call in
`c6w_pair`. -/
theorem c6_tie_breaker_prebye_witness :
    ∃ t1, SwissTournament.update_scores c6w_t0 [] = some t1 ∧
      (sc_get c6w_pair.1.scores 0).1.tie_breaker
        = spec_median_tb (SwissTournament.swiss_points t1.scores)
            ((sc_get c6w_pair.1.scores 0).2) ∧
      ((sc_get c6w_pair.1.scores 0).2.card ≤ 1 →
        (sc_get c6w_pair.1.scores 0).1.tie_breaker = 0) := by
  exact SwissTournament.c6_tie_breaker_prebye c6w_t0 [] c6w_pair.1 c6w_pair.2 rfl 0 (by decide)

/-- A fresh Swiss tournament for the C5 witness, as produced by `new(1, 1)`. -/
def c5w_t0 : SwissTournament := ⟨[], 0, 1, 1, [], ∅⟩

/-- One `advance_round` call (empty results) on a two-agent roster. -/
def c5w_pair : SwissTournament × List (List (List Nat)) :=
  (SwissTournament.run_trace (SwissTournament.add_agents c5w_t0 [0, 1]) [[]]).getD (c5w_t0, [])

/-- C5 witness: `c5_swiss_termination` applied to the concrete one-call
trace in `c5w_pair`. -/
theorem c5_swiss_termination_witness :
    ((c5w_pair.2.filter (fun o => !o.isEmpty)).length ≤
        (if 1 ≤ 1 then 1 else Nat.clog 2 ([0, 1] : List Nat).length)) ∧
    (∀ k (hk : k < c5w_pair.2.length),
      (if 1 ≤ 1 then 1 else Nat.clog 2 ([0, 1] : List Nat).length) ≤
        ((c5w_pair.2.take k).filter (fun o => !o.isEmpty)).length →
      c5w_pair.2.get ⟨k, hk⟩ = []) := by
  exact c5_swiss_termination 1 1 c5w_t0 [0, 1] [[]] c5w_pair.1 c5w_pair.2 rfl rfl

end AiTournament
